import Mathlib

/-
Verification of the hook-coordinator and check-runner logic of pre-commit-go.

The Go source is shallowly embedded: the outcome of each external repository
operation (Stash, Checkout, Between, Restore) and of each individual check is
supplied as input data, and the coordinator functions are translated
statement-by-statement from the Go source.  Durations are natural numbers of
nanoseconds, mirroring the Go time.Duration representation.
-/

namespace PreCommitGo

/-! ## Check runner (Go function runChecks) -/

/-- One nanosecond count per second, mirroring time.Second in Go. -/
def secondNs : Nat := 1000000000

/-- The observable outcome of one check invocation: the name of the check,
the error value returned by check.Run (none on success), and the measured
wall-clock duration in nanoseconds. -/
structure CheckOutcome where
  name : String
  runErr : Option String
  duration : Nat
deriving DecidableEq

/-- A failure record pushed on the errs channel of runChecks: either the
error reported by the check itself, or the synthetic budget-exceeded error
built by fmt.Errorf when the duration exceeds the allowed maximum. -/
inductive CheckFailure
  | reported (name : String) (e : String) (duration : Nat)
  | budget (name : String) (duration : Nat)
deriving DecidableEq

/-- Name of the check a failure record refers to. -/
def failureName : CheckFailure → String
  | .reported n _ _ => n
  | .budget n _ => n

/-- The failure records one check contributes to the errs channel, translated
from the body of the per-check goroutine in runChecks: the error of the check
when non-nil, followed by the synthetic budget error when
duration is greater than maxDuration seconds. -/
def checkFailures (maxDuration : Nat) (c : CheckOutcome) : List CheckFailure :=
  (match c.runErr with
   | some e => [CheckFailure.reported c.name e c.duration]
   | none => []) ++
  (if maxDuration * secondNs < c.duration then [CheckFailure.budget c.name c.duration] else [])

/-- Concatenation of the failure records of every launched check. -/
def collectFailures (maxDuration : Nat) : List CheckOutcome → List CheckFailure
  | [] => []
  | c :: cs => checkFailures maxDuration c ++ collectFailures maxDuration cs

/-- Translation of runChecks together with its errs channel.  The channel
capacity is the number of launched checks; each check can send two records
(its reported error and, independently, the budget-exceeded error); the
main goroutine receives only after wg.Wait, hence after every send
completed.  When the records fit the capacity no send ever blocks, wg.Wait
returns, and the drain loop yields the records and the aggregate error: nil
when no record was received, else the summary error mentioning the total
wall-clock duration of the run (formatted in Go as a number of seconds and
modelled as the duration it reports).  When the records outnumber the
capacity, a send blocks forever with no receiver, the deferred wg.Done of
that goroutine never runs, wg.Wait never returns and the function never
returns: modelled as none.  The order of records across checks is scheduler
dependent in Go; the list here is in launch order and only
order-independent facts are proved of it. -/
def runChecks (maxDuration : Nat) (cs : List CheckOutcome) (totalDuration : Nat) :
    Option (List CheckFailure × Option Nat) :=
  let fails := collectFailures maxDuration cs
  if fails.length ≤ cs.length then
    some (fails, if fails = [] then none else some totalDuration)
  else none

/-! ## Pre-commit coordinator (Go function runPreCommit) -/

/-- The outcomes of the repository operations a pre-commit invocation may
perform: Stash (did-stash flag and error), Between (whether a non-nil change
was produced, and its error), the error of runChecks when it runs, and the
error of Restore when it runs. -/
structure PreCommitEnv where
  stashRes : Bool × Option String
  betweenRes : Bool × Option String
  checksErr : Option String
  restoreErr : Option String

/-- What a pre-commit invocation did: which operations ran and the error it
returned. -/
structure PreCommitResult where
  ranBetween : Bool
  ranChecks : Bool
  ranRestore : Bool
  err : Option String
deriving DecidableEq

/-- Translation of runPreCommit: stash first, returning its error at once;
then Between, whose error is overwritten by the result of runChecks whenever
a non-nil change came back; finally, when something was stashed, Restore runs
and its error is kept only when the error so far is nil. -/
def runPreCommit (env : PreCommitEnv) : PreCommitResult :=
  match env.stashRes.2 with
  | some e => ⟨false, false, false, some e⟩
  | none =>
    let stashed := env.stashRes.1
    let hasChange := env.betweenRes.1
    let err := if hasChange then env.checksErr else env.betweenRes.2
    if stashed then
      ⟨true, hasChange, true, if err = none then env.restoreErr else err⟩
    else
      ⟨true, hasChange, false, err⟩

/-! ## Pre-push line parsing (the Go regexp rePrePush)

The pattern is anchored and has four groups:
group 1 a lazy nonempty run of characters, a space, group 2 exactly forty
lowercase hexadecimal digits, a space, group 3 a lazy nonempty run, a space,
group 4 exactly forty lowercase hexadecimal digits ending the line.  The
matcher below implements the lazy (shortest-first, backtracking) semantics
of the two dot-plus groups directly. -/

/-- Character class of the sha fields of the rePrePush pattern. -/
def isHexLower (c : Char) : Bool :=
  (decide ('0'.toNat ≤ c.toNat) && decide (c.toNat ≤ '9'.toNat)) ||
  (decide ('a'.toNat ≤ c.toNat) && decide (c.toNat ≤ 'f'.toNat))

/-- Forty lowercase hexadecimal digits. -/
def isHex40 (cs : List Char) : Bool :=
  cs.length == 40 && cs.all isHexLower

/-- Lazy match of a nonempty group followed by a literal space: the shortest
nonempty prefix of the input after which a space stands and the continuation
succeeds on the remainder; on failure of the continuation the group is
extended one character at a time, spaces included. -/
def lazyGroup {α : Type} (k : List Char → Option α) :
    List Char → List Char → Option (List Char × α)
  | _, [] => none
  | accRev, c :: rest =>
    let accRev2 := c :: accRev
    match rest with
    | ' ' :: rest2 =>
      (match k rest2 with
       | some r => some (accRev2.reverse, r)
       | none => lazyGroup k accRev2 rest)
    | _ => lazyGroup k accRev2 rest

/-- A forty-digit sha group followed by a literal space, then the
continuation. -/
def shaThenSpace {α : Type} (k : List Char → Option α) (cs : List Char) :
    Option (List Char × α) :=
  let b := cs.take 40
  if isHex40 b then
    match cs.drop 40 with
    | ' ' :: rest => (k rest).map (fun r => (b, r))
    | _ => none
  else none

/-- The final sha group, anchored at the end of the line. -/
def finalSha (cs : List Char) : Option (List Char) :=
  if isHex40 cs then some cs else none

/-- Matching the whole rePrePush pattern against a line, returning the four
groups (local-ref, local-sha, remote-ref, remote-sha) on success. -/
def rePrePushMatch (cs : List Char) :
    Option (List Char × List Char × List Char × List Char) :=
  lazyGroup (fun r1 => shaThenSpace (fun r2 => lazyGroup finalSha [] r2) r1) [] cs

/-- Group 2 of the match, the local sha, as a string. -/
def parsedLocal (line : String) : Option String :=
  (rePrePushMatch line.toList).map (fun m => String.mk m.2.1)

/-- Group 4 of the match, the remote sha, as a string. -/
def parsedRemote (line : String) : Option String :=
  (rePrePushMatch line.toList).map (fun m => String.mk m.2.2.2)

/-! ## Pre-push coordinator (Go function runPrePush) -/

/-- The forty-zero sentinel commit (Go constant gitNilCommit). -/
def gitNilCommit : String := "0000000000000000000000000000000000000000"

/-- Modelled from the spec: the scm package, which is not under src, exports
GitInitialCommit, the distinguished RootReference denoting the very first
point in repository history; it is modelled as an opaque sentinel distinct
from every forty-digit hexadecimal commit and from gitNilCommit. -/
def gitInitialCommit : String := "<root>"

/-- One repository operation observed during a pre-push run. -/
inductive RepoEv
  | stash
  | checkout (target : String)
  | between (src dst : String)
  | runCk (src dst : String)
  | restore
deriving DecidableEq

/-- The behaviour of the repository and of the checks during one pre-push
invocation: the initial HEAD commit, the symbolic ref name (empty when the
checkout was detached), the result of Stash, and the error returned by each
Checkout, Between and runChecks call as a function of its arguments. -/
structure PrePushEnv where
  head : String
  ref : String
  stashRes : Bool × Option String
  checkoutErr : String → Option String
  betweenErr : String → String → Option String
  checksErr : String → String → Option String
  restoreErr : Option String

/-- The mutable locals of the runPrePush loop (curr, stashed, triedToStash)
together with the trace of repository operations performed so far. -/
structure PPState where
  curr : String
  stashed : Bool
  triedToStash : Bool
  evs : List RepoEv
deriving DecidableEq

/-- Outcome of processing one input line: continue the loop with a new
state, or leave the loop carrying an error. -/
inductive StepOut
  | next (st : PPState)
  | halt (st : PPState) (e : String)
deriving DecidableEq

/-- State carried by a step outcome. -/
def outState : StepOut → PPState
  | .next st => st
  | .halt st _ => st

/-- Trace carried by a step outcome. -/
def stepEvs (s : StepOut) : List RepoEv := (outState s).evs

/-- The stash-and-checkout phase of one loop iteration, translated from the
body of the if to is not equal to curr block: when the target commit differs
from the current one, Stash runs once per invocation (guarded by
triedToStash, with the stashed flag assigned from its result even on error),
then curr is set to the target and Checkout runs. -/
def checkoutPhase (env : PrePushEnv) (st : PPState) (toC : String) : StepOut :=
  if toC = st.curr then .next st
  else
    let stashStep : StepOut :=
      if st.triedToStash then .next st
      else
        let st2 := { st with
          triedToStash := true
          stashed := env.stashRes.1
          evs := st.evs ++ [RepoEv.stash] }
        match env.stashRes.2 with
        | some e => .halt st2 e
        | none => .next st2
    match stashStep with
    | .halt st2 e => .halt st2 e
    | .next st2 =>
      let st3 := { st2 with curr := toC, evs := st2.evs ++ [RepoEv.checkout toC] }
      match env.checkoutErr toC with
      | some e => .halt st3 e
      | none => .next st3

/-- Processing of one input line of the pre-push protocol, translated from
the loop body of runPrePush: a line the pattern rejects is a protocol error;
a line whose local sha (group 2) is the nil commit is a deletion and is
skipped; otherwise the stash-and-checkout phase runs, the remote sha
(group 4) is replaced by the initial commit when it is the nil commit, and
Between then runChecks run, each error leaving the loop. -/
def prePushStep (env : PrePushEnv) (st : PPState) (line : String) : StepOut :=
  match rePrePushMatch line.toList with
  | none => .halt st ("unexpected stdin for pre-push: " ++ line)
  | some m =>
    let toC := String.mk m.2.1
    let fromRaw := String.mk m.2.2.2
    if toC = gitNilCommit then .next st
    else
      match checkoutPhase env st toC with
      | .halt st2 e => .halt st2 e
      | .next st2 =>
        let fromC := if fromRaw = gitNilCommit then gitInitialCommit else fromRaw
        let st3 := { st2 with evs := st2.evs ++ [RepoEv.between fromC toC] }
        match env.betweenErr fromC toC with
        | some e => .halt st3 e
        | none =>
          let st4 := { st3 with evs := st3.evs ++ [RepoEv.runCk fromC toC] }
          match env.checksErr fromC toC with
          | some e => .halt st4 e
          | none => .next st4

/-- The read loop of runPrePush over the complete input lines; reaching the
end of the list is the io.EOF exit, which runPrePush turns into a nil
error. -/
def prePushLoop (env : PrePushEnv) : PPState → List String → PPState × Option String
  | st, [] => (st, none)
  | st, l :: ls =>
    match prePushStep env st l with
    | .next st2 => prePushLoop env st2 ls
    | .halt st2 e => (st2, some e)

/-- Initial loop state: curr is the initial HEAD, nothing stashed, stash not
yet attempted. -/
def initPPState (env : PrePushEnv) : PPState := ⟨env.head, false, false, []⟩

/-- Final trace and error of a pre-push invocation. -/
structure PrePushResult where
  evs : List RepoEv
  err : Option String
deriving DecidableEq

/-- The deferred cleanup of runPrePush, translated from its defer block: when
curr differs from the initial HEAD, Checkout of the recorded ref name (or of
the initial commit when the ref name is empty) runs, its error kept only
when the error so far is nil; then, when something was stashed, Restore
runs, its error kept only when the error so far is nil. -/
def prePushCleanup (env : PrePushEnv) (st : PPState) (e0 : Option String) : PrePushResult :=
  let (evs1, e1) :=
    if st.curr = env.head then (st.evs, e0)
    else
      let p := if env.ref = "" then env.head else env.ref
      (st.evs ++ [RepoEv.checkout p],
       match e0 with
       | some e => some e
       | none => env.checkoutErr p)
  if st.stashed then
    ⟨evs1 ++ [RepoEv.restore],
     match e1 with
     | some e => some e
     | none => env.restoreErr⟩
  else ⟨evs1, e1⟩

/-- Translation of runPrePush: run the loop from the initial state over the
input lines, then apply the deferred cleanup to whatever state and error the
loop left. -/
def runPrePush (env : PrePushEnv) (lines : List String) : PrePushResult :=
  let r := prePushLoop env (initPPState env) lines
  prePushCleanup env r.1 r.2

/-! ## Specification-side description of the deferred pre-push cleanup

The following three definitions are written from the words of the
specification, not from the source, and are compared with the translated
runPrePush in the corresponding theorem. -/

/-- Modelled from the spec: the original checked-out reference to restore —
the recorded branch or ref name if one was recorded, else the original
commit. -/
def specRestoreTarget (env : PrePushEnv) : String :=
  if env.ref = "" then env.head else env.ref

/-- Modelled from the spec: on any exit path the deferred cleanup first
restores the original checked-out reference, only when the checkout was
moved, and then reverses the stash if one was made, in that order. -/
def specCleanupEvs (env : PrePushEnv) (st : PPState) : List RepoEv :=
  (if st.curr = env.head then [] else [RepoEv.checkout (specRestoreTarget env)]) ++
  (if st.stashed then [RepoEv.restore] else [])

/-- Modelled from the spec: a cleanup error replaces the reported error only
when the primary error is nil; the re-checkout error is considered before
the stash-reversal error. -/
def specCleanupErr (env : PrePushEnv) (st : PPState) : Option String → Option String
  | some e => some e
  | none =>
    match (if st.curr = env.head then none
           else env.checkoutErr (specRestoreTarget env)) with
    | some e => some e
    | none => if st.stashed then env.restoreErr else none

/-! ## Stash counting -/

/-- Number of stash operations in a trace. -/
def stashCount : List RepoEv → Nat
  | [] => 0
  | RepoEv.stash :: r => stashCount r + 1
  | _ :: r => stashCount r

/-- Loop invariant tying the number of stash operations performed to the
triedToStash flag. -/
def stashInv (st : PPState) : Prop :=
  stashCount st.evs = (if st.triedToStash = true then 1 else 0)

/-! ## Concrete inputs used in witnesses and counterexamples -/

/-- A forty-digit hexadecimal commit distinct from the nil sentinel. -/
def sha1s : String := "1111111111111111111111111111111111111111"

/-- A pre-push input line whose local sha is sha1s and whose remote sha is
the all-zero sentinel: a new branch with no prior remote state. -/
def lineNewBranch : String :=
  "refs/heads/a " ++ sha1s ++ " refs/heads/a " ++ gitNilCommit

/-- A pre-push input line whose local sha is the all-zero sentinel: a ref
deletion. -/
def lineDeletion : String :=
  "refs/heads/a " ++ gitNilCommit ++ " refs/heads/a " ++ sha1s

/-- A benign pre-push environment: HEAD already at sha1s, on a named ref,
and every repository operation and check succeeding. -/
def envA : PrePushEnv :=
  { head := sha1s, ref := "refs/heads/a", stashRes := (false, none),
    checkoutErr := fun _ => none, betweenErr := fun _ _ => none,
    checksErr := fun _ _ => none, restoreErr := none }

/-- A check that reports a failure and also overruns a one-second budget. -/
def slowCheck : CheckOutcome := ⟨"slow", some "boom", 1500000001⟩

/-- A check that succeeds instantly. -/
def quickCheck : CheckOutcome := ⟨"quick", none, 1⟩

/-- A check that reports a failure instantly, within budget. -/
def failCheck : CheckOutcome := ⟨"alsoBad", some "nope", 1⟩

/-- A pre-commit environment where the stash succeeded with something
stashed, the checks failed and the restoration failed too. -/
def envPC : PreCommitEnv :=
  ⟨(true, none), (true, none), some "check failed", some "restore failed"⟩

/-- A pre-commit environment whose stash fails. -/
def envPCStashFail : PreCommitEnv :=
  ⟨(false, some "stash exploded"), (true, none), none, none⟩

/-! ## Claim theorems for the check runner and the pre-commit coordinator -/

/-- Claim C6, evaluated at the failing input: a single check that reports a
failure after overrunning a one-second budget produces two records for the
capacity-one errs channel, so the check runner never returns and the budget
failure the claim promises is never recorded. -/
theorem runChecks_deadlocks_on_slow_failing_check :
    runChecks 1 [slowCheck] 2 = none := by
  decide

/-- Claim C7, evaluated at the failing input: with one check that fails and
overruns the budget (two records) and one that merely fails (one record),
the three records exceed the capacity-two errs channel, so the check runner
never returns and no aggregate error is produced although checks failed. -/
theorem runChecks_no_aggregate_despite_failures :
    runChecks 1 [slowCheck, failCheck] 2 = none := by
  decide

/-- Claim C8 counterexample: a terminating run (two checks, two records fit
the capacity-two channel) in which one check both reports a failure and
overruns the budget delivers two failure records for that one check. -/
theorem runChecks_double_failure_record :
    (runChecks 1 [slowCheck, quickCheck] 2).map
        (fun r => r.1.countP (fun f => failureName f == "slow")) = some 2 := by
  decide

/-- Claim C8 amended: in a run that terminates (the failure records fit the
errs channel, whose capacity is the number of checks), the delivered records
are exactly the per-check records in sequence, and each check contributes
one reported-failure record when it returned an error plus one
budget-exceeded record when it overran the budget — so none on an in-budget
success and two for a check that both fails and overruns. -/
theorem runChecks_per_check_records (m t : Nat) (cs : List CheckOutcome)
    (r : List CheckFailure × Option Nat) (h : runChecks m cs t = some r) :
    r.1 = collectFailures m cs
    ∧ ∀ c ∈ cs, (checkFailures m c).length =
        (if c.runErr.isSome then 1 else 0) +
          (if m * secondNs < c.duration then 1 else 0) := by
  constructor
  · simp only [runChecks] at h
    split at h
    · injection h with h2
      subst h2
      rfl
    · cases h
  · intro c _
    cases he : c.runErr <;> by_cases hd : m * secondNs < c.duration <;>
      simp [checkFailures, he, hd]

/-- Claim C8 amended witness: the terminating two-check run delivers exactly
the reported and budget records of the slow check, with the stated
per-check counts. -/
theorem runChecks_per_check_records_w :
    ((([CheckFailure.reported "slow" "boom" 1500000001,
        CheckFailure.budget "slow" 1500000001], some 2) :
          List CheckFailure × Option Nat)).1
      = collectFailures 1 [slowCheck, quickCheck]
    ∧ ∀ c ∈ [slowCheck, quickCheck], (checkFailures 1 c).length =
        (if c.runErr.isSome then 1 else 0) +
          (if 1 * secondNs < c.duration then 1 else 0) :=
  runChecks_per_check_records 1 2 [slowCheck, quickCheck]
    ([CheckFailure.reported "slow" "boom" 1500000001,
      CheckFailure.budget "slow" 1500000001], some 2) (by decide)

/-- Claim C5: in the pre-commit protocol, when Stash reported that something
was stashed, Restore runs whatever the Between and check outcomes were; the
error already present (the check-running error when a change was produced,
the Between error otherwise) takes priority over a restoration error, and a
restoration error occurring alone is the one returned. -/
theorem preCommit_restore_unconditional (env : PreCommitEnv)
    (h : env.stashRes = (true, none)) :
    (runPreCommit env).ranRestore = true ∧
    (runPreCommit env).err =
      (if (if env.betweenRes.1 then env.checksErr else env.betweenRes.2) = none
       then env.restoreErr
       else (if env.betweenRes.1 then env.checksErr else env.betweenRes.2)) := by
  have h2 : env.stashRes.2 = none := by rw [h]
  have h1 : env.stashRes.1 = true := by rw [h]
  simp [runPreCommit, h2, h1]

/-- Claim C5 witness: with a stash made, failing checks and a failing
restoration, Restore still ran and the check error is the one returned. -/
theorem preCommit_restore_unconditional_w :
    (runPreCommit envPC).ranRestore = true ∧
    (runPreCommit envPC).err =
      (if (if envPC.betweenRes.1 then envPC.checksErr else envPC.betweenRes.2) = none
       then envPC.restoreErr
       else (if envPC.betweenRes.1 then envPC.checksErr else envPC.betweenRes.2)) :=
  preCommit_restore_unconditional envPC (by decide)

/-- Claim C10: in the pre-commit protocol a Stash error is returned at once:
no Between, no checks, no Restore. -/
theorem preCommit_stash_error_short_circuits (env : PreCommitEnv) (e : String)
    (h : env.stashRes.2 = some e) :
    runPreCommit env = ⟨false, false, false, some e⟩ := by
  simp [runPreCommit, h]

/-- Claim C10 witness: a failing stash aborts the pre-commit run before any
other repository operation. -/
theorem preCommit_stash_error_short_circuits_w :
    runPreCommit envPCStashFail = ⟨false, false, false, some "stash exploded"⟩ :=
  preCommit_stash_error_short_circuits envPCStashFail "stash exploded" (by decide)

/-! ## Claim theorems for the pre-push coordinator -/

/-- Claim C1 counterexample: a line whose remote sha is the all-zero
sentinel but whose local sha is a real commit is not skipped — the code
computes a change set from the initial commit and invokes the checks on
it. -/
theorem prePush_remote_nil_not_skipped :
    runPrePush envA [lineNewBranch] =
      ⟨[RepoEv.between gitInitialCommit sha1s, RepoEv.runCk gitInitialCommit sha1s],
        none⟩ := by
  decide

/-- Claim C1 amended: it is the line whose local sha (group 2 of the
pattern) is the all-zero sentinel that is skipped as a ref deletion — the
loop continues on the remaining lines with an unchanged state, so no change
set is computed and no checks run for that line. -/
theorem prePush_skip_nil_local (env : PrePushEnv) (st : PPState) (line : String)
    (rest : List String) (h : parsedLocal line = some gitNilCommit) :
    prePushLoop env st (line :: rest) = prePushLoop env st rest := by
  cases hm : rePrePushMatch line.toList with
  | none =>
    simp only [String.toList] at hm
    simp [parsedLocal, String.toList, hm] at h
  | some m =>
    simp only [String.toList] at hm
    have hb : String.mk m.2.1 = gitNilCommit := by
      simpa [parsedLocal, String.toList, hm] using h
    simp [prePushLoop, prePushStep, String.toList, hm, hb]

/-- Claim C1 amended witness: a concrete deletion line is skipped. -/
theorem prePush_skip_nil_local_w :
    prePushLoop envA (initPPState envA) [lineDeletion] =
      prePushLoop envA (initPPState envA) [] :=
  prePush_skip_nil_local envA (initPPState envA) lineDeletion [] (by decide)

/-- Claim C2 counterexample: a line whose local sha is the all-zero sentinel
is skipped outright — no change set against the root reference (nor any
other repository operation) is computed for it. -/
theorem prePush_local_nil_no_changeset :
    runPrePush envA [lineDeletion] = ⟨[], none⟩ := by
  decide

/-- When the stash and the checkout succeed, the stash-and-checkout phase
continues the iteration and only appends events to the trace. -/
theorem checkoutPhase_evs_next (env : PrePushEnv) (st : PPState) (toC : String)
    (hs : env.stashRes.2 = none) (hc : env.checkoutErr toC = none) :
    ∃ st2 pre, checkoutPhase env st toC = .next st2 ∧ st2.evs = st.evs ++ pre := by
  by_cases h1 : toC = st.curr
  · exact ⟨st, [], by simp [checkoutPhase, h1], by simp⟩
  · by_cases h2 : st.triedToStash = true
    · refine ⟨{ st with curr := toC, evs := st.evs ++ [RepoEv.checkout toC] },
        [RepoEv.checkout toC], ?_, by simp⟩
      simp [checkoutPhase, h1, h2, hc]
    · refine ⟨{ st with
          triedToStash := true
          stashed := env.stashRes.1
          curr := toC
          evs := (st.evs ++ [RepoEv.stash]) ++ [RepoEv.checkout toC] },
        [RepoEv.stash, RepoEv.checkout toC], ?_, by simp⟩
      simp [checkoutPhase, h1, h2, hs, hc]

/-- Claim C2 amended: it is the line whose remote sha (group 4 of the
pattern) is the all-zero sentinel — with a non-sentinel local sha — whose
change set is computed as a diff from the root reference: whenever the stash
and the checkout succeed, the Between operation recorded for such a line
runs from the initial commit. -/
theorem prePush_nil_remote_diffs_from_root (env : PrePushEnv) (st : PPState)
    (line l : String)
    (hl : parsedLocal line = some l) (hr : parsedRemote line = some gitNilCommit)
    (hnz : l ≠ gitNilCommit) (hs : env.stashRes.2 = none)
    (hc : env.checkoutErr l = none) :
    RepoEv.between gitInitialCommit l ∈ stepEvs (prePushStep env st line) := by
  cases hm : rePrePushMatch line.toList with
  | none =>
    simp only [String.toList] at hm
    simp [parsedLocal, String.toList, hm] at hl
  | some m =>
    simp only [String.toList] at hm
    have hb : String.mk m.2.1 = l := by
      simpa [parsedLocal, String.toList, hm] using hl
    have hd : String.mk m.2.2.2 = gitNilCommit := by
      simpa [parsedRemote, String.toList, hm] using hr
    obtain ⟨st2, pre, hcp, hevs⟩ := checkoutPhase_evs_next env st l hs hc
    cases hbe : env.betweenErr gitInitialCommit l with
    | some e =>
      simp [prePushStep, String.toList, hm, hb, hd, hnz, hcp, hbe,
        stepEvs, outState, hevs]
    | none =>
      cases hce : env.checksErr gitInitialCommit l with
      | some e =>
        simp [prePushStep, String.toList, hm, hb, hd, hnz, hcp, hbe, hce,
          stepEvs, outState, hevs]
      | none =>
        simp [prePushStep, String.toList, hm, hb, hd, hnz, hcp, hbe, hce,
          stepEvs, outState, hevs]

/-- Claim C2 amended witness: the concrete new-branch line diffs from the
root reference. -/
theorem prePush_nil_remote_diffs_from_root_w :
    RepoEv.between gitInitialCommit sha1s ∈
      stepEvs (prePushStep envA (initPPState envA) lineNewBranch) :=
  prePush_nil_remote_diffs_from_root envA (initPPState envA) lineNewBranch sha1s
    (by decide) (by decide) (by decide) (by decide) (by decide)

/-- Claim C3: a line carrying a real (non-sentinel) local sha and the
all-zero remote sha gets a change set computed from the root reference to
that local sha, and the checks are invoked on it, whenever the stash, the
checkout and the Between operation succeed. -/
theorem prePush_new_branch_runs_checks_from_root (env : PrePushEnv) (st : PPState)
    (line l : String)
    (hl : parsedLocal line = some l) (hr : parsedRemote line = some gitNilCommit)
    (hnz : l ≠ gitNilCommit) (hs : env.stashRes.2 = none)
    (hc : env.checkoutErr l = none) (hbe : env.betweenErr gitInitialCommit l = none) :
    RepoEv.between gitInitialCommit l ∈ stepEvs (prePushStep env st line) ∧
    RepoEv.runCk gitInitialCommit l ∈ stepEvs (prePushStep env st line) := by
  cases hm : rePrePushMatch line.toList with
  | none =>
    simp only [String.toList] at hm
    simp [parsedLocal, String.toList, hm] at hl
  | some m =>
    simp only [String.toList] at hm
    have hb : String.mk m.2.1 = l := by
      simpa [parsedLocal, String.toList, hm] using hl
    have hd : String.mk m.2.2.2 = gitNilCommit := by
      simpa [parsedRemote, String.toList, hm] using hr
    obtain ⟨st2, pre, hcp, hevs⟩ := checkoutPhase_evs_next env st l hs hc
    cases hce : env.checksErr gitInitialCommit l with
    | some e =>
      constructor <;>
        simp [prePushStep, String.toList, hm, hb, hd, hnz, hcp, hbe, hce,
          stepEvs, outState, hevs]
    | none =>
      constructor <;>
        simp [prePushStep, String.toList, hm, hb, hd, hnz, hcp, hbe, hce,
          stepEvs, outState, hevs]

/-- Claim C3 witness: the concrete new-branch line produces a change set
from the root reference to sha1s and runs the checks on it. -/
theorem prePush_new_branch_runs_checks_from_root_w :
    RepoEv.between gitInitialCommit sha1s ∈
      stepEvs (prePushStep envA (initPPState envA) lineNewBranch) ∧
    RepoEv.runCk gitInitialCommit sha1s ∈
      stepEvs (prePushStep envA (initPPState envA) lineNewBranch) :=
  prePush_new_branch_runs_checks_from_root envA (initPPState envA) lineNewBranch sha1s
    (by decide) (by decide) (by decide) (by decide) (by decide) (by decide)

/-- The translated deferred cleanup agrees with the specification-side
description, for any loop exit state and primary error. -/
theorem prePushCleanup_spec (env : PrePushEnv) (st : PPState) (e0 : Option String) :
    (prePushCleanup env st e0).evs = st.evs ++ specCleanupEvs env st ∧
    (prePushCleanup env st e0).err = specCleanupErr env st e0 := by
  by_cases h1 : st.curr = env.head
  · cases h2 : st.stashed <;> cases e0 <;>
      simp [prePushCleanup, specCleanupEvs, specCleanupErr, specRestoreTarget, h1, h2]
  · cases hco : env.checkoutErr (if env.ref = "" then env.head else env.ref) <;>
      cases h2 : st.stashed <;> cases e0 <;>
      simp [prePushCleanup, specCleanupEvs, specCleanupErr, specRestoreTarget, h1, h2, hco]

/-- Claim C4: on every exit path of a pre-push invocation — normal end of
stream, a line failing checks, a repository-operation error, or a malformed
input line — the operations performed are exactly the loop operations
followed by the deferred cleanup: first the re-checkout of the recorded ref
name (or the original commit when no ref name was recorded), performed only
when the recorded checkout was moved, then the stash reversal when a stash
was made; and a cleanup error replaces the reported error only when the
primary error is nil. -/
theorem prePush_cleanup_on_every_exit (env : PrePushEnv) (lines : List String) :
    (runPrePush env lines).evs =
      (prePushLoop env (initPPState env) lines).1.evs
        ++ specCleanupEvs env (prePushLoop env (initPPState env) lines).1
    ∧ (runPrePush env lines).err =
      specCleanupErr env (prePushLoop env (initPPState env) lines).1
        (prePushLoop env (initPPState env) lines).2 := by
  have h := prePushCleanup_spec env (prePushLoop env (initPPState env) lines).1
    (prePushLoop env (initPPState env) lines).2
  simpa [runPrePush] using h

/-- Appending traces adds their stash counts. -/
theorem stashCount_append (l1 l2 : List RepoEv) :
    stashCount (l1 ++ l2) = stashCount l1 + stashCount l2 := by
  induction l1 with
  | nil => simp [stashCount]
  | cons a r ih => cases a <;> (simp [stashCount, ih]; try omega)

/-- The stash-and-checkout phase preserves the stash invariant. -/
theorem checkoutPhase_stashInv (env : PrePushEnv) (st : PPState) (toC : String)
    (h : stashInv st) : stashInv (outState (checkoutPhase env st toC)) := by
  by_cases h1 : toC = st.curr
  · simpa [checkoutPhase, h1, outState] using h
  · cases h2 : st.triedToStash with
    | true =>
      rw [stashInv, h2] at h
      cases hco : env.checkoutErr toC <;>
        simp [checkoutPhase, h1, h2, hco, outState, stashInv,
          stashCount_append, stashCount, h]
    | false =>
      rw [stashInv, h2] at h
      simp at h
      cases hst : env.stashRes.2 <;> cases hco : env.checkoutErr toC <;>
        simp [checkoutPhase, h1, h2, hst, hco, outState, stashInv,
          stashCount_append, stashCount, h]

/-- One loop iteration preserves the stash invariant. -/
theorem prePushStep_stashInv (env : PrePushEnv) (st : PPState) (line : String)
    (h : stashInv st) : stashInv (outState (prePushStep env st line)) := by
  cases hm : rePrePushMatch line.toList with
  | none =>
    simp only [String.toList] at hm
    simpa [prePushStep, String.toList, hm, outState] using h
  | some m =>
    simp only [String.toList] at hm
    by_cases hb : String.mk m.2.1 = gitNilCommit
    · simpa [prePushStep, String.toList, hm, hb, outState] using h
    · have hcp := checkoutPhase_stashInv env st (String.mk m.2.1) h
      cases hcps : checkoutPhase env st (String.mk m.2.1) with
      | halt st2 e =>
        rw [hcps] at hcp
        simpa [prePushStep, String.toList, hm, hb, hcps, outState] using hcp
      | next st2 =>
        rw [hcps] at hcp
        simp only [outState] at hcp
        rw [stashInv] at hcp
        cases hbe : env.betweenErr
            (if String.mk m.2.2.2 = gitNilCommit then gitInitialCommit
             else String.mk m.2.2.2) (String.mk m.2.1) <;>
          cases hce : env.checksErr
            (if String.mk m.2.2.2 = gitNilCommit then gitInitialCommit
             else String.mk m.2.2.2) (String.mk m.2.1) <;>
          simp [prePushStep, String.toList, hm, hb, hcps, hbe, hce, outState,
            stashInv, stashCount_append, stashCount, hcp]

/-- The whole loop preserves the stash invariant. -/
theorem prePushLoop_stashInv (env : PrePushEnv) :
    ∀ (ls : List String) (st : PPState), stashInv st →
      stashInv (prePushLoop env st ls).1 := by
  intro ls
  induction ls with
  | nil =>
    intro st h
    simpa [prePushLoop] using h
  | cons l ls ih =>
    intro st h
    have hstep := prePushStep_stashInv env st l h
    cases hs : prePushStep env st l with
    | next st2 =>
      rw [hs] at hstep
      simp only [outState] at hstep
      simpa [prePushLoop, hs] using ih st2 hstep
    | halt st2 e =>
      rw [hs] at hstep
      simpa [prePushLoop, hs, outState] using hstep

/-- The deferred cleanup performs no stash operation. -/
theorem prePushCleanup_stashCount (env : PrePushEnv) (st : PPState)
    (e0 : Option String) :
    stashCount (prePushCleanup env st e0).evs = stashCount st.evs := by
  by_cases h1 : st.curr = env.head <;> cases h2 : st.stashed <;>
    simp [prePushCleanup, h1, h2, stashCount_append, stashCount]

/-- Claim C9: within one pre-push invocation the Stash operation runs at
most once, whatever the input lines and the repository behaviour are. -/
theorem prePush_stash_at_most_once (env : PrePushEnv) (lines : List String) :
    stashCount (runPrePush env lines).evs ≤ 1 := by
  have h0 : stashInv (initPPState env) := by
    simp [stashInv, initPPState, stashCount]
  have h := prePushLoop_stashInv env lines (initPPState env) h0
  rw [stashInv] at h
  simp only [runPrePush]
  rw [prePushCleanup_stashCount, h]
  split <;> omega

end PreCommitGo
